import Mathlib

/-!
Shallow embedding of the storage layer (`src/db.ts`) and the optimistic-update
coordinator (`src/hooks/useOptimisticUpdate.ts`) of the indexed-db-react-demo
repository, together with proofs of the specification claims about them.

Records are modelled as association lists of (field name, value) pairs in
property-insertion order, mirroring plain JS objects. The storage engine
(IndexedDB) is modelled per its documented contract: object stores keyed by a
`keyPath` field with an auto-increment generator starting at 1, an optional
unique composite index, `add`/`put`/`get`/`delete`/`clear` request semantics,
and cursor enumeration in ascending key order. Engine-level failures at the
request or transaction level are injected through an explicit `Fate` argument,
so that the promise-resolution behaviour of each `db.ts` wrapper (which
`resolve`s a sentinel instead of throwing) is captured as a total function.
-/

namespace IDBDemo

/-- A JS primitive value as used by the demo's records: numbers (ids,
timestamps) and strings (names, emails, levels, temporary ids). -/
inductive Value where
  | num (n : Nat)
  | str (s : String)
deriving DecidableEq, Repr

/-- A JS object in property-insertion order. -/
abbrev Record := List (String × Value)

/-- `r[k]` read: first binding of `k` (JS objects have unique keys, so the
first binding is the binding). -/
def getField (r : Record) (k : String) : Option Value :=
  (r.find? (fun p => p.1 = k)).map (fun p => p.2)

/-- `Object.hasOwn(r, k)`. -/
def hasOwn (r : Record) (k : String) : Bool :=
  r.any (fun p => p.1 = k)

/-- `r[k] = v`: overwrite in place when the key exists, append otherwise. -/
def setField : Record → String → Value → Record
  | [], k, v => [(k, v)]
  | p :: rest, k, v =>
    if p.1 = k then (k, v) :: rest else p :: setField rest k v

/-- The merge loop of `update` (db.ts lines 312-316):
`for key in newData: if Object.hasOwn(retrievedData, key) then
retrievedData[key] = newData[key]`. Keys of `newData` absent from the
record are skipped. -/
def mergeInto (retrieved : Record) (newData : Record) : Record :=
  newData.foldl
    (fun acc p => if hasOwn acc p.1 then setField acc p.1 p.2 else acc)
    retrieved

/-- JS object spread `\x7b...a, ...b\x7d`: every key of `b` is written onto
`a`, added when absent. Used by the optimistic coordinator. -/
def spreadMerge (a : Record) (b : Record) : Record :=
  b.foldl (fun acc p => setField acc p.1 p.2) a

/-- One IndexedDB object store: its `keyPath` field name, the optional unique
composite index (declared in `initDB` for `userSkills` only), the stored
records in insertion order, and the state of the auto-increment key
generator (next key to hand out; IndexedDB generators start at 1). -/
structure Store where
  keyField : String
  uniqueIdx : Option (String × String)
  records : List Record
  nextId : Nat
deriving DecidableEq, Repr

/-- Injected engine outcome for one operation: normal execution, an error
fired on the individual request, or an error fired on the transaction. -/
inductive Fate where
  | ok
  | reqError
  | txError
deriving DecidableEq, Repr

/-- The composite index key of a record for index fields `idx`, or `none`
when the record lacks one of the fields (such records are not indexed and
escape the uniqueness constraint, per the IndexedDB contract). -/
def compositeOf (idx : String × String) (r : Record) : Option (Value × Value) :=
  match getField r idx.1, getField r idx.2 with
  | some a, some b => some (a, b)
  | _, _ => none

/-- Does adding `data` violate the store's unique composite index? -/
def addConflict (s : Store) (data : Record) : Bool :=
  match s.uniqueIdx with
  | none => false
  | some idx =>
    match compositeOf idx data with
    | none => false
    | some c => s.records.any (fun r => compositeOf idx r = some c)

/-- `store.get(id)` result: the record whose key field holds `id`. -/
def findByKey (s : Store) (id : Nat) : Option Record :=
  s.records.find? (fun r => getField r s.keyField = some (Value.num id))

/-- `store.add(data)` on a keyPath + autoIncrement store: a key already
present in `data` is used as-is (ConstraintError when that key exists),
otherwise the generator assigns the next key and injects it into the stored
record; a unique-index violation makes the request fail. `none` models the
request error, leaving the store unchanged (the transaction aborts). -/
def addRecord (s : Store) (data : Record) : Option (Nat × Store) :=
  match getField data s.keyField with
  | none =>
    if addConflict s data then none
    else
      some (s.nextId,
        ⟨s.keyField, s.uniqueIdx,
          s.records ++ [data ++ [(s.keyField, Value.num s.nextId)]],
          s.nextId + 1⟩)
  | some (Value.num k) =>
    if (s.records.any (fun r => getField r s.keyField = some (Value.num k)))
        || addConflict s data then none
    else
      some (k,
        ⟨s.keyField, s.uniqueIdx, s.records ++ [data],
          max s.nextId (k + 1)⟩)
  | some (Value.str _) => none

/-- `create` (db.ts lines 156-187): resolves the new id from the add
request's success event, `null` on a request- or transaction-level error. -/
def createOp (s : Store) (data : Record) (fate : Fate) :
    Option Nat × Store :=
  match fate with
  | Fate.ok =>
    match addRecord s data with
    | some (k, s') => (some k, s')
    | none => (none, s)
  | _ => (none, s)

/-- `get` (db.ts lines 192-221): resolves the record, or `null` both when
the id is absent (`result === undefined`) and on any error. -/
def getOp (s : Store) (id : Nat) (fate : Fate) : Option Record :=
  match fate with
  | Fate.ok => findByKey s id
  | _ => none

/-- IndexedDB key order restricted to the key shapes this demo stores:
numbers order numerically and precede strings; strings order by code units. -/
def keyLe : Option Value → Option Value → Bool
  | some (Value.num a), some (Value.num b) => a ≤ b
  | some (Value.num _), _ => true
  | _, some (Value.num _) => false
  | some (Value.str a), some (Value.str b) => decide (a ≤ b)
  | none, _ => true
  | _, none => false

/-- Key order lifted to records of a store. -/
def recKeyLe (kf : String) (a b : Record) : Prop :=
  keyLe (getField a kf) (getField b kf) = true

instance (kf : String) : DecidableRel (recKeyLe kf) :=
  fun _ _ => inferInstanceAs (Decidable (_ = true))

/-- The sequence of values an open cursor visits: every record, in ascending
key order. -/
def getAllList (s : Store) : List Record :=
  s.records.insertionSort (recKeyLe s.keyField)

/-- The events `getAll` (db.ts lines 226-271) observes: one cursor success
per record, then the transaction's `oncomplete`. -/
inductive GetAllEvent where
  | curSuccess (v : Record)
  | txComplete
deriving DecidableEq, Repr

/-- The event sequence of a clean `getAll` enumeration on store `s`. -/
def getAllEvents (s : Store) : List GetAllEvent :=
  (getAllList s).map GetAllEvent.curSuccess ++ [GetAllEvent.txComplete]

/-- The promise state machine of `getAll`: each cursor success pushes the
value and does not resolve; the transaction's `oncomplete` resolves the
accumulated array. `none` means the promise has not resolved. -/
def runGetAll (acc : List Record) : List GetAllEvent → Option (List Record)
  | [] => none
  | GetAllEvent.curSuccess v :: es => runGetAll (acc ++ [v]) es
  | GetAllEvent.txComplete :: _ => some acc

/-- `getAll`: resolves the full enumeration at transaction completion, or
`null` on a request- or transaction-level error. -/
def getAllOp (s : Store) (fate : Fate) : Option (List Record) :=
  match fate with
  | Fate.ok => runGetAll [] (getAllEvents s)
  | _ => none

/-- Does `put r` violate the unique composite index? A conflict is an
indexed record under a different primary key with the same composite key. -/
def putConflict (s : Store) (r : Record) : Bool :=
  match s.uniqueIdx with
  | none => false
  | some idx =>
    match compositeOf idx r with
    | none => false
    | some c =>
      s.records.any (fun q =>
        decide (¬ getField q s.keyField = getField r s.keyField) &&
          decide (compositeOf idx q = some c))

/-- Replace the record stored under key `v` (primary keys are unique in the
engine), or append when the key is new. -/
def replaceByKey (records : List Record) (kf : String) (v : Value)
    (r : Record) : List Record :=
  if records.any (fun q => getField q kf = some v) then
    records.map (fun q => if getField q kf = some v then r else q)
  else records ++ [r]

/-- `store.put(r)`: a key present in `r` overwrites the record under that
key; an absent key is assigned by the generator and injected into the
stored clone; a unique-index violation fails the request. -/
def putRecord (s : Store) (r : Record) : Option (Value × Store) :=
  match getField r s.keyField with
  | none =>
    let r' := r ++ [(s.keyField, Value.num s.nextId)]
    if putConflict s r' then none
    else
      some (Value.num s.nextId,
        ⟨s.keyField, s.uniqueIdx,
          replaceByKey s.records s.keyField (Value.num s.nextId) r',
          s.nextId + 1⟩)
  | some v =>
    if putConflict s r then none
    else
      some (v,
        ⟨s.keyField, s.uniqueIdx, replaceByKey s.records s.keyField v r,
          match v with
          | Value.num k => max s.nextId (k + 1)
          | Value.str _ => s.nextId⟩)

/-- `update` (db.ts lines 276-330): read the record by id inside the same
readwrite transaction; when absent (`if (!retrievedData)`), synthesize one
via `createDefault()`; overwrite only keys the record already owns; `put`
the merged record and resolve it, `null` on any error. -/
def updateOp (s : Store) (id : Nat) (newData : Record)
    (createDefault : Unit → Record) (fate : Fate) :
    Option Record × Store :=
  match fate with
  | Fate.ok =>
    let retrieved := (findByKey s id).getD (createDefault ())
    let merged := mergeInto retrieved newData
    match putRecord s merged with
    | some (_, s') => (some merged, s')
    | none => (none, s)
  | _ => (none, s)

/-- `remove` (db.ts lines 335-361): `delete` succeeds even for an absent
key (engine no-op); resolves `false` only on an injected error. -/
def removeOp (s : Store) (id : Nat) (fate : Fate) : Bool × Store :=
  match fate with
  | Fate.ok =>
    (true,
      ⟨s.keyField, s.uniqueIdx,
        s.records.filter
          (fun r => ¬ getField r s.keyField = some (Value.num id)),
        s.nextId⟩)
  | _ => (false, s)

/-- `clearStore` (db.ts lines 366-387). -/
def clearOp (s : Store) (fate : Fate) : Bool × Store :=
  match fate with
  | Fate.ok => (true, ⟨s.keyField, s.uniqueIdx, [], s.nextId⟩)
  | _ => (false, s)

/-- The three object stores `initDB` creates on first open. -/
structure Database where
  users : Store
  skills : Store
  userSkills : Store
deriving DecidableEq, Repr

/-- `users` store as created by `initDB` (db.ts lines 94-104). -/
def usersStore0 : Store := ⟨"userId", none, [], 1⟩

/-- `skills` store as created by `initDB` (db.ts lines 106-116). -/
def skillsStore0 : Store := ⟨"skillId", none, [], 1⟩

/-- `userSkills` store as created by `initDB` (db.ts lines 118-134), with
the unique composite index on (userId, skillId). -/
def userSkillsStore0 : Store := ⟨"userSkillId", some ("userId", "skillId"), [], 1⟩

/-- `initDB` (db.ts lines 76-151): resolves `true` with the connected
database after the upgrade handler created any missing stores, `false`
when the open request errors. -/
def initDB (openOk : Bool) : Bool × Option Database :=
  if openOk then (true, some ⟨usersStore0, skillsStore0, userSkillsStore0⟩)
  else (false, none)

/-! ## Optimistic coordinator (`src/hooks/useOptimisticUpdate.ts`)

The hook's state is the pending-operation `Map` (a JS `Map`, so
insertion-ordered with in-place updates) together with the underlying
store. Each coordinator operation is a function of that state; the
operation id (`op_<timestamp>_<random>` in the source) is an explicit
argument. -/

/-- The `OptimisticAction` union type. -/
inductive OAction where
  | create
  | update
  | delete
deriving DecidableEq, Repr

/-- `PendingOperation<T>` (useOptimisticUpdate.ts lines 7-14). -/
structure PendingOp where
  id : String
  action : OAction
  item : Record
  originalItem : Option Record
  confirmed : Bool
  error : Option String
deriving DecidableEq, Repr

/-- The pending-operation `Map` in insertion order; keys are operation ids. -/
abbrev PendingMap := List (String × PendingOp)

/-- `Map.set`: overwrite in place when the key exists (JS `Map.set` keeps
the original position), append otherwise. -/
def mapSet : PendingMap → String → PendingOp → PendingMap
  | [], k, v => [(k, v)]
  | p :: rest, k, v =>
    if p.1 = k then (k, v) :: rest else p :: mapSet rest k v

/-- `Map.get`. -/
def mapGet (m : PendingMap) (k : String) : Option PendingOp :=
  (m.find? (fun p => p.1 = k)).map (fun p => p.2)

/-- `Map.delete`, as used by `clearOperation` (lines 204-210). -/
def mapDelete (m : PendingMap) (k : String) : PendingMap :=
  m.filter (fun p => ¬ p.1 = k)

/-- `Array.from(map.values())` in insertion order. -/
def mapValues (m : PendingMap) : List PendingOp :=
  m.map (fun p => p.2)

/-- JS truthiness of the optional `error` string (`!!operation.error`):
`undefined` and the empty string are falsy. -/
def strTruthy : Option String → Bool
  | none => false
  | some s => ¬ s = ""

/-- The match predicate shared by `hasPendingOperation` and
`getOptimisticState` (lines 219-222 and 227-230): the entry's snapshot
identifier equals the queried id, or equals that entry's own temporary id
`temp_<operationId>` — the second disjunct does not mention the queried
id. -/
def opMatches (kf : String) (itemId : Value) (op : PendingOp) : Bool :=
  getField op.item kf = some itemId
    || getField op.item kf = some (Value.str ("temp_" ++ op.id))

/-- The derived status object built by `getOptimisticState` (lines
234-240). -/
structure OptState where
  isPending : Bool
  isError : Bool
  isConfirmed : Bool
  error : Option String
  action : OAction
deriving DecidableEq, Repr

/-- `getOptimisticState` (lines 226-241): linear scan for the first
matching entry, `null` when none matches. -/
def getOptimisticState (kf : String) (m : PendingMap) (itemId : Value) :
    Option OptState :=
  ((mapValues m).find? (opMatches kf itemId)).map
    (fun op =>
      ⟨!op.confirmed && !strTruthy op.error,
        strTruthy op.error, op.confirmed, op.error, op.action⟩)

/-- `hasPendingOperation` (lines 218-223). -/
def hasPendingOp (kf : String) (m : PendingMap) (itemId : Value) : Bool :=
  (mapValues m).any (opMatches kf itemId)

/-- The object each optimistic operation resolves:
`\x7bsuccess, item?, error?, operationId\x7d`. -/
structure OpResult where
  success : Bool
  item : Option Record
  error : Option String
  operationId : String
deriving DecidableEq, Repr

/-- The error message every failure path produces: the coordinator throws
`new Error('Database operation failed')` when the adapter resolves its
sentinel, and catches it in the same function. -/
def dbFailMsg : String := "Database operation failed"

/-- Phase 1 of `optimisticCreate` (lines 27-44): synthesize the tentative
record with the temporary id written into the key field, and register the
pending entry before the storage call. Returns the tentative record and
the updated map. -/
def optimisticCreatePhase1 (kf : String) (m : PendingMap) (opId : String)
    (newItem : Record) : Record × PendingMap :=
  let optimisticItem := setField newItem kf (Value.str ("temp_" ++ opId))
  (optimisticItem,
    mapSet m opId ⟨opId, OAction.create, optimisticItem, none, false, none⟩)

/-- Mark the entry `opId` errored (the shared catch block of all three
operations). -/
def markErrored (m : PendingMap) (opId : String) : PendingMap :=
  match mapGet m opId with
  | some op => mapSet m opId ⟨op.id, op.action, op.item, op.originalItem,
      op.confirmed, some dbFailMsg⟩
  | none => m

/-- `optimisticCreate` (lines 27-84): register the tentative record, call
the adapter's `create` with the caller's `newItem`, then either confirm the
entry with the real id (`if (actualId)` — JS truthiness, so id 0 would be
treated as failure) or mark it errored. Never throws; failure is data. -/
def optimisticCreate (db : Store) (kf : String) (m : PendingMap)
    (opId : String) (newItem : Record) (fate : Fate) :
    OpResult × Store × PendingMap :=
  let p := optimisticCreatePhase1 kf m opId newItem
  let c := createOp db newItem fate
  match c.1 with
  | some actualId =>
    if actualId ≠ 0 then
      let confirmedItem := setField p.1 kf (Value.num actualId)
      let m2 :=
        match mapGet p.2 opId with
        | some op => mapSet p.2 opId ⟨op.id, op.action, confirmedItem,
            op.originalItem, true, op.error⟩
        | none => p.2
      (⟨true, some confirmedItem, none, opId⟩, c.2, m2)
    else
      (⟨false, none, some dbFailMsg, opId⟩, c.2, markErrored p.2 opId)
  | none =>
    (⟨false, none, some dbFailMsg, opId⟩, c.2, markErrored p.2 opId)

/-- Phase 1 of `optimisticUpdate` (lines 93-107): the tentative record is
the JS spread `\x7b...originalItem, ...updates\x7d`. -/
def optimisticUpdatePhase1 (m : PendingMap) (opId : String)
    (updates : Record) (originalItem : Record) : Record × PendingMap :=
  let optimisticItem := spreadMerge originalItem updates
  (optimisticItem,
    mapSet m opId
      ⟨opId, OAction.update, optimisticItem, some originalItem, false, none⟩)

/-- `optimisticUpdate` (lines 87-146): register the tentative merge, call
the adapter's `update`, confirm with the adapter's merged record or mark
errored. -/
def optimisticUpdate (db : Store) (m : PendingMap) (opId : String)
    (id : Nat) (updates : Record) (originalItem : Record)
    (createDefault : Unit → Record) (fate : Fate) :
    OpResult × Store × PendingMap :=
  let p := optimisticUpdatePhase1 m opId updates originalItem
  let u := updateOp db id updates createDefault fate
  match u.1 with
  | some result =>
    let m2 :=
      match mapGet p.2 opId with
      | some op => mapSet p.2 opId ⟨op.id, op.action, result,
          op.originalItem, true, op.error⟩
      | none => p.2
    (⟨true, some result, none, opId⟩, u.2, m2)
  | none =>
    (⟨false, none, some dbFailMsg, opId⟩, u.2, markErrored p.2 opId)

/-- `optimisticDelete` (lines 149-201): register the original record under
a `delete` entry, call the adapter's `remove`, confirm or mark errored. -/
def optimisticDelete (db : Store) (m : PendingMap) (opId : String)
    (id : Nat) (originalItem : Record) (fate : Fate) :
    OpResult × Store × PendingMap :=
  let m1 := mapSet m opId
    ⟨opId, OAction.delete, originalItem, some originalItem, false, none⟩
  let r := removeOp db id fate
  if r.1 then
    let m2 :=
      match mapGet m1 opId with
      | some op => mapSet m1 opId ⟨op.id, op.action, op.item,
          op.originalItem, true, op.error⟩
      | none => m1
    (⟨true, none, none, opId⟩, r.2, m2)
  else
    (⟨false, none, some dbFailMsg, opId⟩, r.2, markErrored m1 opId)

/-- `clearOperation` (lines 204-210). -/
def clearOperation (m : PendingMap) (opId : String) : PendingMap :=
  mapDelete m opId

/-! ## Basic lemmas about record fields -/

theorem hasOwn_false_iff (r : Record) (k : String) :
    hasOwn r k = false ↔ getField r k = none := by
  simp [hasOwn, getField, List.any_eq_false, List.find?_eq_none,
    Option.map_eq_none']

theorem getField_cons (p : String × Value) (rest : Record) (k : String) :
    getField (p :: rest) k = if p.1 = k then some p.2 else getField rest k := by
  by_cases h : p.1 = k <;> simp [getField, List.find?_cons, h]

theorem hasOwn_cons (p : String × Value) (rest : Record) (k : String) :
    hasOwn (p :: rest) k = (decide (p.1 = k) || hasOwn rest k) := by
  simp [hasOwn]

theorem getField_setField_self (r : Record) (k : String) (v : Value) :
    getField (setField r k v) k = some v := by
  induction r with
  | nil => simp [setField, getField_cons, getField]
  | cons p rest ih =>
    by_cases h : p.1 = k
    · simp [setField, h, getField_cons]
    · simp [setField, h, getField_cons, ih]

theorem getField_setField_ne (r : Record) (k k' : String) (v : Value)
    (h : k' ≠ k) : getField (setField r k v) k' = getField r k' := by
  have hk : ¬ (k = k') := fun hc => h hc.symm
  induction r with
  | nil => simp [setField, getField_cons, getField, hk]
  | cons p rest ih =>
    by_cases hp : p.1 = k
    · have hp' : ¬ (p.1 = k') := by rw [hp]; exact hk
      simp [setField, hp, getField_cons, hk, hp']
    · by_cases hk' : p.1 = k'
      · simp [setField, hp, getField_cons, hk', hk, h]
      · simp [setField, hp, getField_cons, hk', ih]

theorem hasOwn_setField_self (r : Record) (k : String) (v : Value) :
    hasOwn (setField r k v) k = true := by
  induction r with
  | nil => simp [setField, hasOwn_cons, hasOwn]
  | cons p rest ih =>
    by_cases h : p.1 = k
    · simp [setField, h, hasOwn_cons]
    · simp [setField, h, hasOwn_cons, ih]

theorem hasOwn_setField_ne (r : Record) (k k' : String) (v : Value)
    (h : k' ≠ k) : hasOwn (setField r k v) k' = hasOwn r k' := by
  have hk : ¬ (k = k') := fun hc => h hc.symm
  induction r with
  | nil => simp [setField, hasOwn_cons, hasOwn, hk]
  | cons p rest ih =>
    by_cases hp : p.1 = k
    · have hp' : ¬ (p.1 = k') := by rw [hp]; exact hk
      simp [setField, hp, hasOwn_cons, hk, hp']
    · simp [setField, hp, hasOwn_cons, ih]

theorem getField_append (r1 r2 : Record) (k : String) :
    getField (r1 ++ r2) k = (getField r1 k).or (getField r2 k) := by
  unfold getField
  rw [List.find?_append]
  cases List.find? (fun p => p.1 = k) r1 <;> simp [Option.or]

theorem getField_append_left (r1 r2 : Record) (k : String)
    (h : hasOwn r1 k = true) : getField (r1 ++ r2) k = getField r1 k := by
  rw [getField_append]
  rcases hv : getField r1 k with _ | v
  · rw [← hasOwn_false_iff] at hv
    rw [h] at hv
    cases hv
  · rfl

theorem getField_append_right (r1 r2 : Record) (k : String)
    (h : hasOwn r1 k = false) : getField (r1 ++ r2) k = getField r2 k := by
  rw [getField_append, (hasOwn_false_iff r1 k).mp h]
  rfl

theorem hasOwn_append (r1 r2 : Record) (k : String) :
    hasOwn (r1 ++ r2) k = (hasOwn r1 k || hasOwn r2 k) := by
  simp [hasOwn]

/-! ## Lemmas about the update merge loop -/

theorem mergeInto_cons (r : Record) (p : String × Value) (nd : Record) :
    mergeInto r (p :: nd) =
      mergeInto (if hasOwn r p.1 then setField r p.1 p.2 else r) nd := rfl

theorem hasOwn_mergeInto (nd r : Record) (k : String) :
    hasOwn (mergeInto r nd) k = hasOwn r k := by
  induction nd generalizing r with
  | nil => rfl
  | cons p rest ih =>
    rw [mergeInto_cons]
    by_cases hr : hasOwn r p.1
    · rw [if_pos hr, ih]
      by_cases hk : k = p.1
      · subst hk
        rw [hasOwn_setField_self, hr]
      · exact hasOwn_setField_ne r p.1 k p.2 hk
    · rw [if_neg hr, ih]

theorem getField_mergeInto_of_not_nd (nd r : Record) (k : String)
    (h : hasOwn nd k = false) :
    getField (mergeInto r nd) k = getField r k := by
  induction nd generalizing r with
  | nil => rfl
  | cons p rest ih =>
    rw [hasOwn_cons, Bool.or_eq_false_iff] at h
    have hp : ¬ (k = p.1) := by
      intro hc
      simp [hc] at h
    rw [mergeInto_cons]
    by_cases hr : hasOwn r p.1
    · rw [if_pos hr, ih _ h.2, getField_setField_ne r p.1 k p.2 hp]
    · rw [if_neg hr, ih _ h.2]

theorem getField_mergeInto_of_not_r (nd r : Record) (k : String)
    (h : hasOwn r k = false) : getField (mergeInto r nd) k = none := by
  rw [← hasOwn_false_iff, hasOwn_mergeInto]
  exact h

theorem getField_mergeInto_of_mem (nd r : Record) (k : String) (v : Value)
    (hnodup : (nd.map Prod.fst).Nodup)
    (hnd : getField nd k = some v) (hr : hasOwn r k = true) :
    getField (mergeInto r nd) k = some v := by
  induction nd generalizing r with
  | nil => simp [getField] at hnd
  | cons p rest ih =>
    rw [List.map_cons, List.nodup_cons] at hnodup
    rw [getField_cons] at hnd
    rw [mergeInto_cons]
    by_cases hp : p.1 = k
    · rw [if_pos hp] at hnd
      rw [if_pos (by rw [hp]; exact hr)]
      have hrest : hasOwn rest k = false := by
        rcases hb : hasOwn rest k with _ | _
        · rfl
        · exfalso
          apply hnodup.1
          rw [hp]
          simp only [hasOwn, List.any_eq_true, decide_eq_true_eq] at hb
          obtain ⟨q, hq, hqk⟩ := hb
          exact List.mem_map.mpr ⟨q, hq, hqk⟩
      rw [getField_mergeInto_of_not_nd rest _ k hrest]
      have hv : p.2 = v := by injection hnd
      rw [hp, hv]
      exact getField_setField_self r k v
    · rw [if_neg hp] at hnd
      by_cases hr' : hasOwn r p.1
      · rw [if_pos hr']
        exact ih _ hnodup.2 hnd
          (by rw [hasOwn_setField_ne r p.1 k p.2 (fun hc => hp hc.symm)]; exact hr)
      · rw [if_neg hr']
        exact ih _ hnodup.2 hnd hr

/-! ## Lemmas about the pending-operation map -/

theorem mapGet_mapSet_self (m : PendingMap) (k : String) (v : PendingOp) :
    mapGet (mapSet m k v) k = some v := by
  induction m with
  | nil => simp [mapSet, mapGet, List.find?_cons]
  | cons p rest ih =>
    by_cases h : p.1 = k
    · simp [mapSet, h, mapGet, List.find?_cons]
    · simp [mapSet, h, mapGet, List.find?_cons] at ih ⊢
      exact ih

theorem mapValues_mapSet_nil (k : String) (v : PendingOp) :
    mapValues (mapSet [] k v) = [v] := rfl

/-! ## Failure paths leave the store untouched -/

theorem createOp_none (s : Store) (d : Record) (fate : Fate)
    (h : (createOp s d fate).1 = none) : (createOp s d fate).2 = s := by
  cases fate with
  | ok =>
    rcases ha : addRecord s d with _ | ⟨k, s'⟩
    · simp [createOp, ha]
    · simp [createOp, ha] at h
  | reqError => rfl
  | txError => rfl

theorem updateOp_none (s : Store) (id : Nat) (nd : Record)
    (f : Unit → Record) (fate : Fate)
    (h : (updateOp s id nd f fate).1 = none) :
    (updateOp s id nd f fate).2 = s := by
  cases fate with
  | ok =>
    rcases hp : putRecord s (mergeInto ((findByKey s id).getD (f ())) nd)
        with _ | ⟨v, s'⟩
    · simp [updateOp, hp]
    · simp [updateOp, hp] at h
  | reqError => rfl
  | txError => rfl

theorem removeOp_false (s : Store) (id : Nat) (fate : Fate)
    (h : (removeOp s id fate).1 = false) : (removeOp s id fate).2 = s := by
  cases fate with
  | ok => cases h
  | reqError => rfl
  | txError => rfl

/-! ## Lemmas about the getAll promise state machine -/

theorem runGetAll_resolves (vs : List Record) (acc : List Record) :
    runGetAll acc (vs.map GetAllEvent.curSuccess ++ [GetAllEvent.txComplete])
      = some (acc ++ vs) := by
  induction vs generalizing acc with
  | nil => simp [runGetAll]
  | cons v rest ih =>
    simp only [List.map_cons, List.cons_append, runGetAll, List.append_eq]
    rw [ih]
    simp

theorem runGetAll_no_complete (es : List GetAllEvent) (acc : List Record)
    (h : ∀ e ∈ es, e ≠ GetAllEvent.txComplete) : runGetAll acc es = none := by
  induction es generalizing acc with
  | nil => rfl
  | cons e rest ih =>
    cases e with
    | curSuccess v =>
      rw [runGetAll]
      exact ih _ (fun e he => h e (List.mem_cons_of_mem _ he))
    | txComplete => exact absurd rfl (h _ (List.mem_cons_self _ _))

theorem getAllOp_ok (s : Store) :
    getAllOp s Fate.ok = some (getAllList s) := by
  unfold getAllOp getAllEvents
  rw [runGetAll_resolves]
  rfl

theorem runGetAll_take_none (s : Store) (k : Nat)
    (hk : k < (getAllEvents s).length) :
    runGetAll [] ((getAllEvents s).take k) = none := by
  apply runGetAll_no_complete
  intro e he
  have hlen : k ≤ (getAllList s).length := by
    have := hk
    simp [getAllEvents] at this
    omega
  rw [getAllEvents,
    List.take_append_of_le_length (by simpa using hlen)] at he
  have := List.take_subset k _ he
  rcases List.mem_map.mp this with ⟨v, _, hv⟩
  rw [← hv]
  intro hc
  cases hc

/-! ## Replacement under a key -/

theorem find?_map_replace (l : List Record) (kf : String) (w : Value)
    (u : Record) (hu : getField u kf = some w) :
    (l.map (fun q => if getField q kf = some w then u else q)).find?
        (fun r => getField r kf = some w)
      = if l.any (fun q => getField q kf = some w) then some u else none := by
  induction l with
  | nil => rfl
  | cons q rest ih =>
    by_cases hq : getField q kf = some w
    · simp [hq, List.find?_cons, hu]
    · have hd : (decide (getField q kf = some w)) = false := by
        simp [hq]
      simp only [List.map_cons, if_neg hq, List.find?_cons, hd,
        List.any_cons, Bool.false_or]
      exact ih

theorem self_mem_replaceByKey (l : List Record) (kf : String) (v : Value)
    (r' : Record) : r' ∈ replaceByKey l kf v r' := by
  rcases ha : l.any (fun q => getField q kf = some v) with _ | _
  · unfold replaceByKey
    rw [ha]
    simp
  · unfold replaceByKey
    rw [ha]
    simp only [if_true]
    obtain ⟨q, hq, hqv⟩ := List.any_eq_true.mp ha
    exact List.mem_map.mpr ⟨q, hq, by rw [if_pos (of_decide_eq_true hqv)]⟩

theorem putRecord_some (s : Store) (r : Record) (v : Value) (s' : Store)
    (h : putRecord s r = some (v, s')) :
    s'.keyField = s.keyField ∧ s'.uniqueIdx = s.uniqueIdx ∧
      ((getField r s.keyField = some v ∧
          s'.records = replaceByKey s.records s.keyField v r ∧
          putConflict s r = false)
        ∨ (getField r s.keyField = none ∧ v = Value.num s.nextId ∧
          s'.records = replaceByKey s.records s.keyField
            (Value.num s.nextId) (r ++ [(s.keyField, Value.num s.nextId)]) ∧
          putConflict s (r ++ [(s.keyField, Value.num s.nextId)]) = false)) := by
  rcases hm : getField r s.keyField with _ | w
  · rcases hc : putConflict s (r ++ [(s.keyField, Value.num s.nextId)])
        with _ | _
    · simp only [putRecord, hm, hc, Bool.false_eq_true, if_false,
        Option.some.injEq, Prod.mk.injEq] at h
      obtain ⟨hv, hs⟩ := h
      subst hs
      exact ⟨rfl, rfl, Or.inr ⟨rfl, hv.symm, rfl, rfl⟩⟩
    · simp [putRecord, hm, hc] at h
  · rcases hc : putConflict s r with _ | _
    · simp only [putRecord, hm, hc, Bool.false_eq_true, if_false,
        Option.some.injEq, Prod.mk.injEq] at h
      obtain ⟨hv, hs⟩ := h
      subst hs
      cases hv
      exact ⟨rfl, rfl, Or.inl ⟨rfl, rfl, rfl⟩⟩
    · simp [putRecord, hm, hc] at h

theorem updateOp_ok_some (s : Store) (id : Nat) (nd : Record)
    (f : Unit → Record) (u : Record) (s' : Store)
    (hupd : updateOp s id nd f Fate.ok = (some u, s')) :
    u = mergeInto ((findByKey s id).getD (f ())) nd
    ∧ ∃ v, putRecord s u = some (v, s') := by
  rcases hput : putRecord s (mergeInto ((findByKey s id).getD (f ())) nd)
      with _ | ⟨v, s2⟩
  · simp [updateOp, hput] at hupd
  · simp only [updateOp, hput, Prod.mk.injEq, Option.some.injEq] at hupd
    obtain ⟨hu, hs⟩ := hupd
    subst hu
    subst hs
    exact ⟨rfl, v, hput⟩

/-- C1: for every collection, every existing record, and every
partial-update argument whose keys are JS-object keys (no duplicates) and
do not include the identifier field, `update` stores and returns the
record obtained by overwriting exactly the partial's fields that the
record owns, preserving every other field and the identifier; the stored
record is observable through a subsequent `get`. -/
theorem update_overwrites_only_partial_fields
    (s : Store) (id : Nat) (nd : Record) (f : Unit → Record)
    (r u : Record) (s' : Store)
    (hfind : findByKey s id = some r)
    (hnodup : (nd.map Prod.fst).Nodup)
    (hkf : hasOwn nd s.keyField = false)
    (hupd : updateOp s id nd f Fate.ok = (some u, s')) :
    (∀ k v, getField nd k = some v → hasOwn r k = true →
      getField u k = some v)
    ∧ (∀ k, hasOwn nd k = false → getField u k = getField r k)
    ∧ getField u s.keyField = some (Value.num id)
    ∧ (∀ k, hasOwn u k = hasOwn r k)
    ∧ getOp s' id Fate.ok = some u := by
  obtain ⟨hu, v, hput⟩ := updateOp_ok_some s id nd f u s' hupd
  rw [hfind] at hu
  simp only [Option.getD_some] at hu
  have hfind2 : List.find?
      (fun q => decide (getField q s.keyField = some (Value.num id)))
      s.records = some r := hfind
  have hkey_r : getField r s.keyField = some (Value.num id) := by
    have h1 := List.find?_some hfind2
    simp only [decide_eq_true_eq] at h1
    exact h1
  have hukey : getField u s.keyField = some (Value.num id) := by
    rw [hu, getField_mergeInto_of_not_nd nd r s.keyField hkf]
    exact hkey_r
  obtain ⟨hkf', hidx', hbr⟩ := putRecord_some s u v s' hput
  rcases hbr with ⟨hv, hrec, _⟩ | ⟨hnone, _, _, _⟩
  · have hvid : v = Value.num id := by
      rw [hukey] at hv
      injection hv with h2
      exact h2.symm
    subst hvid
    refine ⟨?_, ?_, hukey, ?_, ?_⟩
    · intro k w hndk hrk
      rw [hu]
      exact getField_mergeInto_of_mem nd r k w hnodup hndk hrk
    · intro k hndk
      rw [hu]
      exact getField_mergeInto_of_not_nd nd r k hndk
    · intro k
      rw [hu]
      exact hasOwn_mergeInto nd r k
    · have hmem : r ∈ s.records := List.mem_of_find?_eq_some hfind
      have hany : s.records.any
          (fun q => getField q s.keyField = some (Value.num id)) = true :=
        List.any_eq_true.mpr ⟨r, hmem, decide_eq_true hkey_r⟩
      unfold getOp findByKey
      rw [hkf', hrec]
      unfold replaceByKey
      rw [if_pos hany]
      rw [find?_map_replace s.records s.keyField (Value.num id) u hukey,
        if_pos hany]
  · rw [hukey] at hnone
    cases hnone

/-- Existing record of the C1 witness scenario. -/
def c1Rec : Record :=
  [("userId", Value.num 1), ("a", Value.str "A"),
    ("b", Value.str "B"), ("c", Value.str "C")]

/-- Store of the C1 witness scenario. -/
def c1Store : Store := ⟨"userId", none, [c1Rec], 2⟩

/-- Expected merged record of the C1 witness scenario. -/
def c1Merged : Record :=
  [("userId", Value.num 1), ("a", Value.str "A"),
    ("b", Value.str "newB"), ("c", Value.str "C")]

/-- Store after the C1 witness update. -/
def c1Store' : Store := ⟨"userId", none, [c1Merged], 2⟩

/-- C1 witness: updating `\x7ba,b,c\x7d` with `\x7bb: newB\x7d` yields the
stored record `\x7ba, newB, c\x7d` with `a`, `c` and the id unchanged. -/
theorem update_overwrites_only_partial_fields_witness :
    updateOp c1Store 1 [("b", Value.str "newB")] (fun _ => []) Fate.ok
      = (some c1Merged, c1Store')
    ∧ getField c1Merged "a" = some (Value.str "A")
    ∧ getField c1Merged "b" = some (Value.str "newB")
    ∧ getField c1Merged "c" = some (Value.str "C")
    ∧ getField c1Merged "userId" = some (Value.num 1)
    ∧ getOp c1Store' 1 Fate.ok = some c1Merged := by
  have h := update_overwrites_only_partial_fields c1Store 1
    [("b", Value.str "newB")] (fun _ => []) c1Rec c1Merged c1Store'
    (by decide) (by decide) (by decide) (by decide)
  exact ⟨by decide, (h.2.1 "a" (by decide)).trans (by decide),
    h.1 "b" (Value.str "newB") (by decide) (by decide),
    (h.2.1 "c" (by decide)).trans (by decide),
    h.2.2.1, h.2.2.2.2⟩

/-- C3: when the id is absent, `update` does not fail: it synthesizes the
record via the factory, merges the partial onto it, persists the result
(the stored record agrees with the merged one on all its fields; the
engine may additionally inject the generated primary key) and returns
it. Stated for stores without a unique index, where no constraint can
independently fail the put. -/
theorem update_upserts_absent_id
    (s : Store) (id : Nat) (nd : Record) (f : Unit → Record)
    (hfind : findByKey s id = none)
    (hidx : s.uniqueIdx = none) :
    (updateOp s id nd f Fate.ok).1 = some (mergeInto (f ()) nd)
    ∧ ∃ stored ∈ (updateOp s id nd f Fate.ok).2.records,
        ∀ k, hasOwn (mergeInto (f ()) nd) k = true →
          getField stored k = getField (mergeInto (f ()) nd) k := by
  have hconf : ∀ r, putConflict s r = false := by
    intro r
    simp [putConflict, hidx]
  rcases hm : getField (mergeInto (f ()) nd) s.keyField with _ | v
  · have hput : putRecord s (mergeInto (f ()) nd) =
        some (Value.num s.nextId,
          ⟨s.keyField, s.uniqueIdx,
            replaceByKey s.records s.keyField (Value.num s.nextId)
              (mergeInto (f ()) nd ++ [(s.keyField, Value.num s.nextId)]),
            s.nextId + 1⟩) := by
      simp [putRecord, hm, hconf]
    refine ⟨by simp [updateOp, hfind, hput], ?_⟩
    refine ⟨mergeInto (f ()) nd ++ [(s.keyField, Value.num s.nextId)],
      ?_, ?_⟩
    · simp only [updateOp, hfind, Option.getD_none, hput]
      exact self_mem_replaceByKey _ _ _ _
    · intro k hk
      exact getField_append_left _ _ k hk
  · obtain ⟨s2, hput, hs2rec⟩ : ∃ s2 : Store,
        putRecord s (mergeInto (f ()) nd) = some (v, s2)
        ∧ s2.records = replaceByKey s.records s.keyField v
            (mergeInto (f ()) nd) := by
      cases v with
      | num k =>
        exact ⟨⟨s.keyField, s.uniqueIdx,
          replaceByKey s.records s.keyField (Value.num k)
            (mergeInto (f ()) nd), max s.nextId (k + 1)⟩,
          by simp [putRecord, hm, hconf], rfl⟩
      | str t =>
        exact ⟨⟨s.keyField, s.uniqueIdx,
          replaceByKey s.records s.keyField (Value.str t)
            (mergeInto (f ()) nd), s.nextId⟩,
          by simp [putRecord, hm, hconf], rfl⟩
    refine ⟨by simp [updateOp, hfind, hput], ?_⟩
    refine ⟨mergeInto (f ()) nd, ?_, fun k _ => rfl⟩
    simp only [updateOp, hfind, Option.getD_none, hput]
    rw [hs2rec]
    exact self_mem_replaceByKey _ _ _ _

/-- C3 witness: updating an absent id 7 in an empty store succeeds and
returns the factory default with the partial applied. -/
theorem update_upserts_absent_id_witness :
    (updateOp ⟨"userId", none, [], 1⟩ 7 [("name", Value.str "N")]
        (fun _ => [("name", Value.str ""), ("email", Value.str "")])
        Fate.ok).1
      = some [("name", Value.str "N"), ("email", Value.str "")] := by
  have h := update_upserts_absent_id ⟨"userId", none, [], 1⟩ 7
    [("name", Value.str "N")]
    (fun _ => [("name", Value.str ""), ("email", Value.str "")])
    (by decide) rfl
  exact h.1.trans (by decide)

/-- C10: the merge writes only keys the fetched (or factory-default)
record already owns; a key of the partial absent from that base record is
dropped: the returned record has exactly the base record's keys, the
dropped key reads as absent, and some persisted record carries the merged
content with the dropped key still absent (apart from the engine-injected
primary key, which is not a value from the partial). -/
theorem update_drops_unknown_keys
    (s : Store) (id : Nat) (nd : Record) (f : Unit → Record)
    (u : Record) (s' : Store)
    (hupd : updateOp s id nd f Fate.ok = (some u, s')) :
    (∀ k, hasOwn u k = hasOwn ((findByKey s id).getD (f ())) k)
    ∧ (∀ k, hasOwn ((findByKey s id).getD (f ())) k = false →
        getField u k = none)
    ∧ ∃ stored ∈ s'.records,
        ∀ k, k ≠ s.keyField →
          hasOwn ((findByKey s id).getD (f ())) k = false →
          getField stored k = none := by
  obtain ⟨hu, v, hput⟩ := updateOp_ok_some s id nd f u s' hupd
  have h1 : ∀ k, hasOwn u k = hasOwn ((findByKey s id).getD (f ())) k := by
    intro k
    rw [hu]
    exact hasOwn_mergeInto nd _ k
  have h2 : ∀ k, hasOwn ((findByKey s id).getD (f ())) k = false →
      getField u k = none := by
    intro k hk
    rw [hu]
    exact getField_mergeInto_of_not_r nd _ k hk
  refine ⟨h1, h2, ?_⟩
  obtain ⟨hkf', hidx', hbr⟩ := putRecord_some s u v s' hput
  rcases hbr with ⟨hv, hrec, _⟩ | ⟨hnone, hv, hrec, _⟩
  · exact ⟨u, by rw [hrec]; exact self_mem_replaceByKey _ _ _ _,
      fun k _ hk => h2 k hk⟩
  · refine ⟨u ++ [(s.keyField, Value.num s.nextId)],
      by rw [hrec]; exact self_mem_replaceByKey _ _ _ _, ?_⟩
    intro k hkne hk
    rw [getField_append, h2 k hk]
    have hne : ¬ (s.keyField = k) := fun hc => hkne hc.symm
    simp [getField_cons, getField, hne, Option.or]

/-- Base record of the C10 witness scenario. -/
def c10Rec : Record := [("userId", Value.num 1), ("a", Value.str "A")]

/-- Store of the C10 witness scenario. -/
def c10Store : Store := ⟨"userId", none, [c10Rec], 2⟩

/-- C10 witness: a partial whose only key `d` is not owned by the stored
record leaves the record unchanged and `d` absent. -/
theorem update_drops_unknown_keys_witness :
    updateOp c10Store 1 [("d", Value.num 5)] (fun _ => []) Fate.ok
      = (some c10Rec, c10Store)
    ∧ getField c10Rec "d" = none
    ∧ hasOwn c10Rec "d" = false := by
  have h := update_drops_unknown_keys c10Store 1 [("d", Value.num 5)]
    (fun _ => []) c10Rec c10Store (by decide)
  exact ⟨by decide, h.2.1 "d" (by decide),
    (h.1 "d").trans (by decide)⟩

/-- C4: on a store whose records all carry generator-assigned keys below
the generator state, a successful `create` of a record without a key makes
a subsequent `get` with the returned id resolve the same record plus the
injected id; and `get` of an id held by no record resolves `null`. -/
theorem create_then_get_round_trip
    (s : Store) (data : Record) (id : Nat) (s' : Store)
    (hWF : ∀ r ∈ s.records, ∃ k,
      getField r s.keyField = some (Value.num k) ∧ k < s.nextId)
    (hNoKey : hasOwn data s.keyField = false)
    (hCreate : createOp s data Fate.ok = (some id, s')) :
    getOp s' id Fate.ok = some (data ++ [(s.keyField, Value.num id)])
    ∧ ∀ j, (∀ r ∈ s.records, getField r s.keyField ≠ some (Value.num j)) →
        getOp s j Fate.ok = none := by
  have hdata : getField data s.keyField = none :=
    (hasOwn_false_iff data s.keyField).mp hNoKey
  rcases hc : addConflict s data with _ | _
  · have hadd : addRecord s data = some (s.nextId,
        ⟨s.keyField, s.uniqueIdx,
          s.records ++ [data ++ [(s.keyField, Value.num s.nextId)]],
          s.nextId + 1⟩) := by
      simp [addRecord, hdata, hc]
    simp only [createOp, hadd, Prod.mk.injEq, Option.some.injEq] at hCreate
    obtain ⟨hid, hs'⟩ := hCreate
    subst hid
    constructor
    · have hkey_new : getField (data ++ [(s.keyField, Value.num s.nextId)])
          s.keyField = some (Value.num s.nextId) := by
        rw [getField_append_right _ _ _ hNoKey]
        simp [getField_cons, getField]
      have hfirst : List.find?
          (fun r => decide (getField r s.keyField = some (Value.num s.nextId)))
          s.records = none := by
        apply List.find?_eq_none.mpr
        intro r hr
        simp only [decide_eq_true_eq]
        obtain ⟨k, hk, hlt⟩ := hWF r hr
        rw [hk]
        intro hcon
        injection hcon with h2
        injection h2 with h3
        omega
      unfold getOp findByKey
      rw [← hs']
      dsimp only
      rw [List.find?_append, hfirst]
      simp [List.find?_cons, hkey_new]
    · intro j hj
      unfold getOp findByKey
      apply List.find?_eq_none.mpr
      intro r hr
      simp only [decide_eq_true_eq]
      exact hj r hr
  · have hnone : createOp s data Fate.ok = (none, s) := by
      simp [createOp, addRecord, hdata, hc]
    rw [hnone] at hCreate
    simp at hCreate

/-- C4 witness: creating `\x7bname, email\x7d` into the fresh `users` store
yields id 1, reading id 1 back returns the record plus `userId = 1`, and
reading the absent id 5 resolves `null`. -/
theorem create_then_get_round_trip_witness :
    getOp (createOp usersStore0
        [("name", Value.str "Alice"), ("email", Value.str "a@x")]
        Fate.ok).2 1 Fate.ok
      = some [("name", Value.str "Alice"), ("email", Value.str "a@x"),
          ("userId", Value.num 1)]
    ∧ getOp usersStore0 5 Fate.ok = none := by
  have h := create_then_get_round_trip usersStore0
    [("name", Value.str "Alice"), ("email", Value.str "a@x")] 1
    (createOp usersStore0
      [("name", Value.str "Alice"), ("email", Value.str "a@x")] Fate.ok).2
    (by intro r hr; cases hr) (by decide) (by decide)
  exact ⟨h.1, h.2 5 (by intro r hr; cases hr)⟩

/-- C7: for an engine error injected at the request level or at the
transaction level, every storage operation resolves its documented
failure sentinel (never an exception, which the embedding has no way to
express: all operations are total functions) and leaves the store
untouched; an errored open request makes `initDB` resolve `false`. -/
theorem operations_resolve_sentinels_on_error
    (s : Store) (data nd : Record) (id : Nat) (f : Unit → Record)
    (fate : Fate) (hf : fate ≠ Fate.ok) :
    createOp s data fate = (none, s)
    ∧ getOp s id fate = none
    ∧ getAllOp s fate = none
    ∧ updateOp s id nd f fate = (none, s)
    ∧ removeOp s id fate = (false, s)
    ∧ clearOp s fate = (false, s)
    ∧ initDB false = (false, none) := by
  cases fate with
  | ok => exact absurd rfl hf
  | reqError => exact ⟨rfl, rfl, rfl, rfl, rfl, rfl, rfl⟩
  | txError => exact ⟨rfl, rfl, rfl, rfl, rfl, rfl, rfl⟩

/-- C7 witness: a transaction-level error on the fresh `users` store. -/
theorem operations_resolve_sentinels_on_error_witness :
    createOp usersStore0 [("name", Value.str "A")] Fate.txError
      = (none, usersStore0)
    ∧ getAllOp usersStore0 Fate.txError = none
    ∧ clearOp usersStore0 Fate.txError = (false, usersStore0)
    ∧ initDB false = (false, none) := by
  have h := operations_resolve_sentinels_on_error usersStore0
    [("name", Value.str "A")] [] 1 (fun _ => []) Fate.txError (by decide)
  exact ⟨h.1, h.2.2.1, h.2.2.2.2.2.1, h.2.2.2.2.2.2⟩

/-- A sequence of `create` calls, one per record, that is `some` exactly
when every individual create succeeded. -/
def createSeq (s : Store) : List Record → Option Store
  | [] => some s
  | d :: ds =>
    match createOp s d Fate.ok with
    | (some _, s') => createSeq s' ds
    | (none, _) => none

/-- Invariant of a store populated through generator-assigned keys: every
record carries a numeric key below the generator state, and keys strictly
increase along the insertion order. -/
def StoreInv (s : Store) : Prop :=
  (∀ r ∈ s.records, ∃ k,
    getField r s.keyField = some (Value.num k) ∧ k < s.nextId)
  ∧ List.Pairwise (fun a b => ∃ i j,
      getField a s.keyField = some (Value.num i)
      ∧ getField b s.keyField = some (Value.num j) ∧ i < j) s.records

theorem createSeq_inv : ∀ (ds : List Record) (s sN : Store),
    (∀ d ∈ ds, hasOwn d s.keyField = false) → StoreInv s →
    createSeq s ds = some sN →
    StoreInv sN ∧ sN.records.length = s.records.length + ds.length
    ∧ sN.keyField = s.keyField := by
  intro ds
  induction ds with
  | nil =>
    intro s sN _ hinv hseq
    simp only [createSeq, Option.some.injEq] at hseq
    subst hseq
    exact ⟨hinv, by simp, rfl⟩
  | cons d ds ih =>
    intro s sN hOwn hinv hseq
    have hd : hasOwn d s.keyField = false := hOwn d (List.mem_cons_self d ds)
    have hdata : getField d s.keyField = none := (hasOwn_false_iff _ _).mp hd
    rcases hc : addConflict s d with _ | _
    · have hstep : createSeq s (d :: ds) = createSeq
          ⟨s.keyField, s.uniqueIdx,
            s.records ++ [d ++ [(s.keyField, Value.num s.nextId)]],
            s.nextId + 1⟩ ds := by
        simp [createSeq, createOp, addRecord, hdata, hc]
      rw [hstep] at hseq
      have hkey_new : getField (d ++ [(s.keyField, Value.num s.nextId)])
          s.keyField = some (Value.num s.nextId) := by
        rw [getField_append_right _ _ _ hd]
        simp [getField_cons, getField]
      have hinv1 : StoreInv
          ⟨s.keyField, s.uniqueIdx,
            s.records ++ [d ++ [(s.keyField, Value.num s.nextId)]],
            s.nextId + 1⟩ := by
        constructor
        · intro r hr
          rcases List.mem_append.mp hr with hr | hr
          · obtain ⟨k, hk, hlt⟩ := hinv.1 r hr
            exact ⟨k, hk, by show k < s.nextId + 1; omega⟩
          · rw [List.mem_singleton] at hr
            subst hr
            exact ⟨s.nextId, hkey_new, by show s.nextId < s.nextId + 1; omega⟩
        · rw [List.pairwise_append]
          refine ⟨hinv.2, List.pairwise_singleton _ _, ?_⟩
          intro a ha b hb
          rw [List.mem_singleton] at hb
          subst hb
          obtain ⟨k, hk, hlt⟩ := hinv.1 a ha
          exact ⟨k, s.nextId, hk, hkey_new, hlt⟩
      obtain ⟨hinvN, hlen, hkf⟩ := ih
        ⟨s.keyField, s.uniqueIdx,
          s.records ++ [d ++ [(s.keyField, Value.num s.nextId)]],
          s.nextId + 1⟩ sN
        (fun d' hd' => hOwn d' (List.mem_cons_of_mem _ hd')) hinv1 hseq
      refine ⟨hinvN, ?_, hkf⟩
      have hlen' : sN.records.length = s.records.length + 1 + ds.length := by
        simpa using hlen
      simp only [List.length_cons]
      omega
    · have hnone : createSeq s (d :: ds) = none := by
        simp [createSeq, createOp, addRecord, hdata, hc]
      rw [hnone] at hseq
      cases hseq

/-- C5: after N sequential successful creates of keyless records into an
empty collection, `getAll` resolves exactly the N stored records in
insertion order (the cursor's key order coincides with it), their ids are
pairwise distinct, and the promise resolves only at the transaction's
completion event — every proper prefix of the enumeration leaves it
unresolved. -/
theorem getAll_after_creates_complete
    (kf : String) (uidx : Option (String × String)) (ds : List Record)
    (sN : Store)
    (hOwn : ∀ d ∈ ds, hasOwn d kf = false)
    (hseq : createSeq ⟨kf, uidx, [], 1⟩ ds = some sN) :
    getAllOp sN Fate.ok = some sN.records
    ∧ sN.records.length = ds.length
    ∧ (sN.records.map (fun r => getField r sN.keyField)).Nodup
    ∧ (∀ k, k < (getAllEvents sN).length →
        runGetAll [] ((getAllEvents sN).take k) = none) := by
  have hinv0 : StoreInv ⟨kf, uidx, [], 1⟩ :=
    ⟨(by intro r hr; cases hr), List.Pairwise.nil⟩
  obtain ⟨hinvN, hlen, hkf⟩ := createSeq_inv ds _ sN hOwn hinv0 hseq
  have hsorted : List.Sorted (recKeyLe sN.keyField) sN.records := by
    refine List.Pairwise.imp ?_ hinvN.2
    intro a b hab
    obtain ⟨i, j, hi, hj, hij⟩ := hab
    unfold recKeyLe
    rw [hi, hj]
    simp only [keyLe, decide_eq_true_eq]
    omega
  have hlist : getAllList sN = sN.records :=
    List.Sorted.insertionSort_eq hsorted
  refine ⟨?_, by simpa using hlen, ?_, ?_⟩
  · rw [getAllOp_ok, hlist]
  · have hne : List.Pairwise
        (fun a b => getField a sN.keyField ≠ getField b sN.keyField)
        sN.records := by
      refine List.Pairwise.imp ?_ hinvN.2
      intro a b hab
      obtain ⟨i, j, hi, hj, hij⟩ := hab
      rw [hi, hj]
      intro hcon
      injection hcon with h2
      injection h2 with h3
      omega
    exact List.pairwise_map.mpr hne
  · intro k hk
    exact runGetAll_take_none sN k hk

/-- Store contents after the two creates of the C5 witness scenario. -/
def c5StoreN : Store :=
  ⟨"userId", none,
    [[("name", Value.str "A"), ("userId", Value.num 1)],
      [("name", Value.str "B"), ("userId", Value.num 2)]], 3⟩

/-- C5 witness: two sequential creates, then a complete enumeration that
resolves both records only at the completion event. -/
theorem getAll_after_creates_complete_witness :
    getAllOp c5StoreN Fate.ok = some c5StoreN.records
    ∧ c5StoreN.records.length = 2
    ∧ runGetAll [] ((getAllEvents c5StoreN).take 2) = none := by
  have h := getAll_after_creates_complete "userId" none
    [[("name", Value.str "A")], [("name", Value.str "B")]] c5StoreN
    (by decide) (by decide)
  exact ⟨h.1, h.2.1, h.2.2.2 2 (by decide)⟩

/-! ## The unique composite index invariant -/

/-- No two indexed records of the store share a composite index key. -/
def uniqueOk (s : Store) : Prop :=
  match s.uniqueIdx with
  | none => True
  | some idx => List.Pairwise (fun a b =>
      compositeOf idx a = none ∨ ¬ compositeOf idx a = compositeOf idx b)
      s.records

/-- Primary keys are pairwise distinct — always true of an engine store,
whose records form a key-indexed map. -/
def distinctKeys (s : Store) : Prop :=
  List.Pairwise (fun a b => ¬ getField a s.keyField = getField b s.keyField)
    s.records

theorem getField_append_single_ne (data : Record) (kf k : String)
    (v : Value) (h : ¬ kf = k) :
    getField (data ++ [(kf, v)]) k = getField data k := by
  rw [getField_append]
  rcases hd : getField data k with _ | w
  · simp [Option.or, getField_cons, getField, h]
  · rfl

theorem compositeOf_append_key (idx : String × String) (kf : String)
    (v : Value) (data : Record)
    (h1 : ¬ kf = idx.1) (h2 : ¬ kf = idx.2) :
    compositeOf idx (data ++ [(kf, v)]) = compositeOf idx data := by
  unfold compositeOf
  rw [getField_append_single_ne data kf idx.1 v h1,
    getField_append_single_ne data kf idx.2 v h2]

theorem pairwise_comp_replaceByKey
    (idx : String × String) (kf : String) (v : Value) (r' : Record)
    (l : List Record)
    (hU : List.Pairwise (fun a b =>
      compositeOf idx a = none ∨ ¬ compositeOf idx a = compositeOf idx b) l)
    (hK : List.Pairwise (fun a b => ¬ getField a kf = getField b kf) l)
    (hr' : getField r' kf = some v)
    (hcross : ∀ q ∈ l, ¬ getField q kf = some v →
      (compositeOf idx q = none ∨
        ¬ compositeOf idx q = compositeOf idx r')
      ∧ (compositeOf idx r' = none ∨
        ¬ compositeOf idx r' = compositeOf idx q)) :
    List.Pairwise (fun a b =>
      compositeOf idx a = none ∨ ¬ compositeOf idx a = compositeOf idx b)
      (replaceByKey l kf v r') := by
  rcases ha : l.any (fun q => getField q kf = some v) with _ | _
  · unfold replaceByKey
    rw [if_neg (by simp [ha])]
    rw [List.pairwise_append]
    refine ⟨hU, List.pairwise_singleton _ _, ?_⟩
    intro a hal b hb
    rw [List.mem_singleton] at hb
    subst hb
    have hka : ¬ getField a kf = some v := by
      have hcopy := List.any_eq_false.mp ha a hal
      simpa using hcopy
    exact (hcross a hal hka).1
  · unfold replaceByKey
    rw [if_pos ha]
    rw [List.pairwise_map]
    refine List.Pairwise.imp_of_mem ?_ (hU.and hK)
    intro a b hal hbl hab
    obtain ⟨hUab, hKab⟩ := hab
    by_cases hka : getField a kf = some v
    · by_cases hkb : getField b kf = some v
      · exact absurd (hka.trans hkb.symm) hKab
      · rw [if_pos hka, if_neg hkb]
        exact (hcross b hbl hkb).2
    · by_cases hkb : getField b kf = some v
      · rw [if_neg hka, if_pos hkb]
        exact (hcross a hal hka).1
      · rw [if_neg hka, if_neg hkb]
        exact hUab

/-- From a failed conflict check, the cross conditions needed to keep the
pairwise invariant through a replacement. -/
theorem putConflict_false_cross (s : Store) (idx : String × String)
    (r' : Record) (v : Value)
    (hidx : s.uniqueIdx = some idx)
    (hr' : getField r' s.keyField = some v)
    (hconf : putConflict s r' = false) :
    ∀ q ∈ s.records, ¬ getField q s.keyField = some v →
      (compositeOf idx q = none ∨
        ¬ compositeOf idx q = compositeOf idx r')
      ∧ (compositeOf idx r' = none ∨
        ¬ compositeOf idx r' = compositeOf idx q) := by
  intro q hq hkq
  rcases hcr : compositeOf idx r' with _ | c
  · constructor
    · rcases hcq : compositeOf idx q with _ | d
      · exact Or.inl rfl
      · exact Or.inr (by simp)
    · exact Or.inl rfl
  · simp only [putConflict, hidx, hcr] at hconf
    have hq2 := List.any_eq_false.mp hconf q hq
    simp only [Bool.and_eq_true, decide_eq_true_eq, not_and] at hq2
    have hne : ¬ compositeOf idx q = some c := by
      apply hq2
      rw [hr']
      exact hkq
    constructor
    · rcases hcq : compositeOf idx q with _ | d
      · exact Or.inl rfl
      · refine Or.inr ?_
        rw [hcq] at hne
        intro hcon
        exact hne hcon
    · refine Or.inr ?_
      intro hcon
      exact hne hcon.symm

theorem addRecord_some (s : Store) (data : Record) (k : Nat) (s1 : Store)
    (h : addRecord s data = some (k, s1)) :
    s1.keyField = s.keyField ∧ s1.uniqueIdx = s.uniqueIdx ∧
      addConflict s data = false ∧
      ((getField data s.keyField = none ∧ k = s.nextId ∧
          s1.records = s.records ++
            [data ++ [(s.keyField, Value.num s.nextId)]])
        ∨ (getField data s.keyField = some (Value.num k) ∧
          s1.records = s.records ++ [data])) := by
  rcases hm : getField data s.keyField with _ | w
  · rcases hc : addConflict s data with _ | _
    · simp only [addRecord, hm, hc, Bool.false_eq_true, if_false,
        Option.some.injEq, Prod.mk.injEq] at h
      obtain ⟨hk, hs⟩ := h
      subst hs
      exact ⟨rfl, rfl, rfl, Or.inl ⟨rfl, hk.symm, rfl⟩⟩
    · simp [addRecord, hm, hc] at h
  · cases w with
    | num k' =>
      rcases hcol : (s.records.any
          (fun r => getField r s.keyField = some (Value.num k')))
          || addConflict s data with _ | _
      · simp only [addRecord, hm, hcol, Bool.false_eq_true, if_false,
          Option.some.injEq, Prod.mk.injEq] at h
        obtain ⟨hk, hs⟩ := h
        subst hs
        subst hk
        exact ⟨rfl, rfl, (Bool.or_eq_false_iff.mp hcol).2,
          Or.inr ⟨rfl, rfl⟩⟩
      · simp [addRecord, hm, hcol] at h
    | str t => simp [addRecord, hm] at h

/-- C6: the (userId, skillId) uniqueness of the `userSkills` collection.
Creating a record whose composite key equals an existing indexed record's
resolves the failure sentinel with the store unchanged, under every fate;
and the pairwise-uniqueness invariant is preserved by `create` (for an
index not containing the primary key, as `initDB` declares), by `update`
(on stores with distinct primary keys, as every engine store has), by
`remove` and by `clear`. -/
theorem userSkills_pair_unique :
    (∀ (s : Store) (idx : String × String) (r0 data : Record) (fate : Fate),
      s.uniqueIdx = some idx → r0 ∈ s.records →
      (∃ c, compositeOf idx r0 = some c ∧ compositeOf idx data = some c) →
      createOp s data fate = (none, s))
    ∧ (∀ (s : Store) (data : Record) (fate : Fate),
      (∀ idx, s.uniqueIdx = some idx →
        ¬ s.keyField = idx.1 ∧ ¬ s.keyField = idx.2) →
      uniqueOk s → uniqueOk (createOp s data fate).2)
    ∧ (∀ (s : Store) (id : Nat) (nd : Record) (f : Unit → Record)
        (fate : Fate),
      uniqueOk s → distinctKeys s → uniqueOk (updateOp s id nd f fate).2)
    ∧ (∀ (s : Store) (id : Nat) (fate : Fate),
      uniqueOk s → uniqueOk (removeOp s id fate).2)
    ∧ (∀ (s : Store) (fate : Fate),
      uniqueOk s → uniqueOk (clearOp s fate).2) := by
  refine ⟨?_, ?_, ?_, ?_, ?_⟩
  · intro s idx r0 data fate hidx hr0 hdup
    cases fate with
    | ok =>
      obtain ⟨c, hr0c, hdc⟩ := hdup
      have hconf : addConflict s data = true := by
        simp only [addConflict, hidx, hdc]
        exact List.any_eq_true.mpr ⟨r0, hr0, decide_eq_true hr0c⟩
      rcases hm : getField data s.keyField with _ | w
      · simp [createOp, addRecord, hm, hconf]
      · cases w with
        | num k => simp [createOp, addRecord, hm, hconf]
        | str t => simp [createOp, addRecord, hm]
    | reqError => rfl
    | txError => rfl
  · intro s data fate hkidx hOk
    cases fate with
    | reqError => exact hOk
    | txError => exact hOk
    | ok =>
      rcases ha : addRecord s data with _ | ⟨k, s1⟩
      · simp only [createOp, ha]
        exact hOk
      · simp only [createOp, ha]
        obtain ⟨hkf1, hidx1, hconfF, hbr⟩ := addRecord_some s data k s1 ha
        rcases hidx : s.uniqueIdx with _ | idx
        · simp only [uniqueOk, hidx1, hidx]
        · obtain ⟨hk1, hk2⟩ := hkidx idx hidx
          simp only [uniqueOk, hidx] at hOk
          simp only [uniqueOk, hidx1, hidx]
          have hcross : ∀ d' : Record,
              compositeOf idx d' = compositeOf idx data →
              ∀ a ∈ s.records,
                compositeOf idx a = none ∨
                  ¬ compositeOf idx a = compositeOf idx d' := by
            intro d' hd' a hal
            rw [hd']
            rcases hcd : compositeOf idx data with _ | c
            · rcases hca : compositeOf idx a with _ | d
              · exact Or.inl rfl
              · exact Or.inr (by simp)
            · simp only [addConflict, hidx, hcd] at hconfF
              have hno := List.any_eq_false.mp hconfF a hal
              simp only [decide_eq_true_eq] at hno
              rcases hca : compositeOf idx a with _ | d
              · exact Or.inl rfl
              · exact Or.inr (by rw [hca] at hno; exact hno)
          rcases hbr with ⟨hm, hkeq, hrec⟩ | ⟨hm, hrec⟩
          · rw [hrec, List.pairwise_append]
            refine ⟨hOk, List.pairwise_singleton _ _, ?_⟩
            intro a hal b hb
            rw [List.mem_singleton] at hb
            subst hb
            exact hcross _ (compositeOf_append_key idx s.keyField
              (Value.num s.nextId) data hk1 hk2) a hal
          · rw [hrec, List.pairwise_append]
            refine ⟨hOk, List.pairwise_singleton _ _, ?_⟩
            intro a hal b hb
            rw [List.mem_singleton] at hb
            subst hb
            exact hcross b rfl a hal
  · intro s id nd f fate hOk hK
    cases fate with
    | reqError => exact hOk
    | txError => exact hOk
    | ok =>
      rcases hput : putRecord s (mergeInto ((findByKey s id).getD (f ())) nd)
          with _ | ⟨v, s2⟩
      · simp only [updateOp, hput]
        exact hOk
      · simp only [updateOp, hput]
        obtain ⟨hkf2, hidx2, hbr⟩ := putRecord_some s _ v s2 hput
        rcases hidx : s.uniqueIdx with _ | idx
        · simp only [uniqueOk, hidx2, hidx]
        · simp only [uniqueOk, hidx] at hOk
          simp only [uniqueOk, hidx2, hidx]
          unfold distinctKeys at hK
          rcases hbr with ⟨hv, hrec, hconfF⟩ | ⟨hm, hveq, hrec, hconfF⟩
          · rw [hrec]
            exact pairwise_comp_replaceByKey idx s.keyField v _ s.records
              hOk hK hv
              (putConflict_false_cross s idx _ v hidx hv hconfF)
          · rw [hrec]
            have hv' : getField
                (mergeInto ((findByKey s id).getD (f ())) nd ++
                  [(s.keyField, Value.num s.nextId)]) s.keyField
                = some (Value.num s.nextId) := by
              rw [getField_append_right _ _ _ ((hasOwn_false_iff _ _).mpr hm)]
              simp [getField_cons, getField]
            exact pairwise_comp_replaceByKey idx s.keyField _ _ s.records
              hOk hK hv'
              (putConflict_false_cross s idx _ _ hidx hv' hconfF)
  · intro s id fate hOk
    cases fate with
    | reqError => exact hOk
    | txError => exact hOk
    | ok =>
      rcases hidx : s.uniqueIdx with _ | idx
      · simp only [removeOp, uniqueOk, hidx]
      · simp only [uniqueOk, hidx] at hOk
        simp only [removeOp, uniqueOk, hidx]
        exact List.Pairwise.sublist (List.filter_sublist _) hOk
  · intro s fate hOk
    cases fate with
    | reqError => exact hOk
    | txError => exact hOk
    | ok =>
      rcases hidx : s.uniqueIdx with _ | idx
      · simp only [clearOp, uniqueOk, hidx]
      · simp only [clearOp, uniqueOk, hidx]
        exact List.Pairwise.nil

/-- Existing junction record of the C6 witness scenario. -/
def c6Rec : Record :=
  [("userId", Value.num 1), ("skillId", Value.num 1),
    ("proficiencyLevel", Value.str "proficient"),
    ("userSkillId", Value.num 1)]

/-- `userSkills` store of the C6 witness scenario. -/
def c6Store : Store :=
  ⟨"userSkillId", some ("userId", "skillId"), [c6Rec], 2⟩

/-- C6 witness: a second create with the same (userId, skillId) pair
resolves `null` and creates nothing. -/
theorem userSkills_pair_unique_witness :
    createOp c6Store
        [("userId", Value.num 1), ("skillId", Value.num 1),
          ("proficiencyLevel", Value.str "learning")] Fate.ok
      = (none, c6Store)
    ∧ uniqueOk c6Store := by
  constructor
  · exact userSkills_pair_unique.1 c6Store ("userId", "skillId") c6Rec
      [("userId", Value.num 1), ("skillId", Value.num 1),
        ("proficiencyLevel", Value.str "learning")]
      Fate.ok rfl (List.mem_cons_self _ _)
      ⟨(Value.num 1, Value.num 1), by decide, by decide⟩
  · exact List.pairwise_singleton _ _

/-- Pending map with one fresh optimistic-create entry, used to exhibit
the behaviour of `getOptimisticState` on an unrelated record id. -/
def c2Map : PendingMap :=
  [("op1", ⟨"op1", OAction.create,
    [("userId", Value.str "temp_op1"), ("name", Value.str "Al")],
    none, false, none⟩)]

/-- C2 counterexample: with a single fresh create entry whose snapshot
identifier is its own temporary id, `getOptimisticState` for the
unrelated real id 999 still returns that entry's status, although no
entry's snapshot identifier is 999 and 999 is no temporary id. -/
theorem getOptimisticState_unrelated_id_cex :
    getOptimisticState "userId" c2Map (Value.num 999)
      = some ⟨true, false, false, none, OAction.create⟩
    ∧ getField
        [("userId", Value.str "temp_op1"), ("name", Value.str "Al")]
        "userId" ≠ some (Value.num 999)
    ∧ (Value.num 999 : Value) ≠ Value.str "temp_op1" := by
  decide

/-- C2 (amended): `getOptimisticState(recordId)` returns the derived
status — pending iff neither confirmed nor carrying a truthy error,
errored, confirmed, plus the action — of the first pending entry whose
snapshot identifier equals `recordId` OR equals that entry's own
temporary id `temp_<operationId>` (the latter irrespective of
`recordId`), and returns nothing exactly when no entry satisfies that
disjunction. -/
theorem getOptimisticState_characterization
    (kf : String) (m : PendingMap) (itemId : Value) :
    (getOptimisticState kf m itemId = none ↔
      ∀ op ∈ mapValues m,
        ¬ (getField op.item kf = some itemId ∨
          getField op.item kf = some (Value.str ("temp_" ++ op.id))))
    ∧ (∀ st, getOptimisticState kf m itemId = some st →
      ∃ op ∈ mapValues m,
        (getField op.item kf = some itemId ∨
          getField op.item kf = some (Value.str ("temp_" ++ op.id)))
        ∧ st = ⟨!op.confirmed && !strTruthy op.error, strTruthy op.error,
            op.confirmed, op.error, op.action⟩) := by
  have hiff : ∀ op : PendingOp, opMatches kf itemId op = true ↔
      (getField op.item kf = some itemId ∨
        getField op.item kf = some (Value.str ("temp_" ++ op.id))) := by
    intro op
    simp [opMatches]
  constructor
  · simp only [getOptimisticState, Option.map_eq_none', List.find?_eq_none]
    constructor
    · intro h op hop
      rw [← hiff op]
      exact h op hop
    · intro h op hop
      rw [hiff op]
      exact h op hop
  · intro st hst
    unfold getOptimisticState at hst
    rcases hf : (mapValues m).find? (opMatches kf itemId) with _ | op
    · rw [hf] at hst
      cases hst
    · rw [hf] at hst
      refine ⟨op, List.mem_of_find?_eq_some hf,
        (hiff op).mp (List.find?_some hf), ?_⟩
      have hst2 : some ((fun op : PendingOp =>
          (⟨!op.confirmed && !strTruthy op.error, strTruthy op.error,
            op.confirmed, op.error, op.action⟩ : OptState)) op) = some st := hst
      injection hst2 with hst3
      exact hst3.symm

/-- C2 witness: on an empty pending map no entry matches, so the lookup
reports nothing. -/
theorem getOptimisticState_characterization_witness :
    getOptimisticState "userId" [] (Value.num 1) = none :=
  (getOptimisticState_characterization "userId" [] (Value.num 1)).1.mpr
    (by intro op hop; cases hop)

/-- C8: `optimisticCreate` on an empty pending map immediately registers
an unconfirmed entry whose snapshot carries the non-numeric temporary id
`temp_<operationId>` (distinct from every numeric id by construction);
after the underlying create succeeds with the real id, the entry is
confirmed and `getOptimisticState` of the real id reports
`isConfirmed = true`; after `clearOperation`, `getOptimisticState` of
that id reports nothing. -/
theorem optimisticCreate_round_trip
    (db : Store) (opId : String) (newItem : Record) (rid : Nat) (db' : Store)
    (hnz : 1 ≤ db.nextId)
    (hNoKey : hasOwn newItem db.keyField = false)
    (hCreate : createOp db newItem Fate.ok = (some rid, db')) :
    getField (optimisticCreatePhase1 db.keyField [] opId newItem).1
        db.keyField = some (Value.str ("temp_" ++ opId))
    ∧ (∀ n : Nat, Value.str ("temp_" ++ opId) ≠ Value.num n)
    ∧ mapGet (optimisticCreatePhase1 db.keyField [] opId newItem).2 opId
        = some ⟨opId, OAction.create,
            (optimisticCreatePhase1 db.keyField [] opId newItem).1,
            none, false, none⟩
    ∧ getOptimisticState db.keyField
        (optimisticCreate db db.keyField [] opId newItem Fate.ok).2.2
        (Value.num rid)
      = some ⟨false, false, true, none, OAction.create⟩
    ∧ (optimisticCreate db db.keyField [] opId newItem Fate.ok).1.success
        = true
    ∧ getOptimisticState db.keyField
        (clearOperation
          (optimisticCreate db db.keyField [] opId newItem Fate.ok).2.2
          opId)
        (Value.num rid)
      = none := by
  have hdata : getField newItem db.keyField = none :=
    (hasOwn_false_iff _ _).mp hNoKey
  rcases ha : addRecord db newItem with _ | ⟨k, s1⟩
  · simp [createOp, ha] at hCreate
  · obtain ⟨hkf1, hidx1, hconfF, hbr⟩ := addRecord_some db newItem k s1 ha
    rcases hbr with ⟨_, hkeq, _⟩ | ⟨hm2, _⟩
    · simp only [createOp, ha, Prod.mk.injEq, Option.some.injEq] at hCreate
      obtain ⟨hkr, hs1⟩ := hCreate
      subst hkr
      subst hs1
      have hridnz : k ≠ 0 := by omega
      have hoc : optimisticCreate db db.keyField [] opId newItem Fate.ok
          = (⟨true, some (setField
                (setField newItem db.keyField
                  (Value.str ("temp_" ++ opId)))
                db.keyField (Value.num k)), none, opId⟩,
            s1,
            [(opId, ⟨opId, OAction.create,
              setField
                (setField newItem db.keyField
                  (Value.str ("temp_" ++ opId)))
                db.keyField (Value.num k),
              none, true, none⟩)]) := by
        simp [optimisticCreate, optimisticCreatePhase1, createOp, ha,
          hridnz, mapSet, mapGet, List.find?_cons]
      refine ⟨getField_setField_self _ _ _, ?_, ?_, ?_, ?_, ?_⟩
      · intro n hc
        cases hc
      · simp [optimisticCreatePhase1, mapSet, mapGet, List.find?_cons]
      · rw [hoc]
        simp [getOptimisticState, mapValues, List.find?_cons, opMatches,
          getField_setField_self, strTruthy]
      · rw [hoc]
      · rw [hoc]
        simp [clearOperation, mapDelete, getOptimisticState, mapValues]
    · rw [hdata] at hm2
      cases hm2

/-- Store contents after the successful create of the C8 witness. -/
def c8Store' : Store :=
  ⟨"userId", none, [[("name", Value.str "Al"), ("userId", Value.num 1)]], 2⟩

/-- C8 witness: the round trip at a concrete creation. -/
theorem optimisticCreate_round_trip_witness :
    getOptimisticState "userId"
        (optimisticCreate usersStore0 "userId" [] "op1"
          [("name", Value.str "Al")] Fate.ok).2.2 (Value.num 1)
      = some ⟨false, false, true, none, OAction.create⟩
    ∧ getOptimisticState "userId"
        (clearOperation
          (optimisticCreate usersStore0 "userId" [] "op1"
            [("name", Value.str "Al")] Fate.ok).2.2 "op1")
        (Value.num 1)
      = none
    ∧ getField (optimisticCreatePhase1 "userId" [] "op1"
          [("name", Value.str "Al")]).1 "userId"
      = some (Value.str "temp_op1") := by
  have h := optimisticCreate_round_trip usersStore0 "op1"
    [("name", Value.str "Al")] 1 c8Store' (by decide) (by decide) (by decide)
  exact ⟨h.2.2.2.1, h.2.2.2.2.2, h.1⟩

/-- C9: when the underlying storage operation fails, each optimistic
operation leaves the persisted store exactly as it was, returns
`success = false` with the error message and the operation id as data
(never an exception), and marks its pending entry errored while keeping
the tentative snapshot for rollback decisions. -/
theorem optimistic_failure_preserves_store
    (db : Store) (kf : String) (m : PendingMap) (opId : String)
    (newItem : Record) (id : Nat) (updates originalItem : Record)
    (f : Unit → Record) (fate : Fate) :
    ((createOp db newItem fate).1 = none →
      (optimisticCreate db kf m opId newItem fate).2.1 = db
      ∧ (optimisticCreate db kf m opId newItem fate).1
          = ⟨false, none, some dbFailMsg, opId⟩
      ∧ mapGet (optimisticCreate db kf m opId newItem fate).2.2 opId
          = some ⟨opId, OAction.create,
              setField newItem kf (Value.str ("temp_" ++ opId)),
              none, false, some dbFailMsg⟩)
    ∧ ((updateOp db id updates f fate).1 = none →
      (optimisticUpdate db m opId id updates originalItem f fate).2.1 = db
      ∧ (optimisticUpdate db m opId id updates originalItem f fate).1
          = ⟨false, none, some dbFailMsg, opId⟩
      ∧ mapGet
          (optimisticUpdate db m opId id updates originalItem f fate).2.2
          opId
          = some ⟨opId, OAction.update, spreadMerge originalItem updates,
              some originalItem, false, some dbFailMsg⟩)
    ∧ ((removeOp db id fate).1 = false →
      (optimisticDelete db m opId id originalItem fate).2.1 = db
      ∧ (optimisticDelete db m opId id originalItem fate).1
          = ⟨false, none, some dbFailMsg, opId⟩
      ∧ mapGet (optimisticDelete db m opId id originalItem fate).2.2 opId
          = some ⟨opId, OAction.delete, originalItem,
              some originalItem, false, some dbFailMsg⟩) := by
  refine ⟨?_, ?_, ?_⟩
  · intro hfail
    have hdb := createOp_none db newItem fate hfail
    refine ⟨?_, ?_, ?_⟩
    · simp [optimisticCreate, optimisticCreatePhase1, hfail, hdb]
    · simp [optimisticCreate, optimisticCreatePhase1, hfail]
    · simp only [optimisticCreate, optimisticCreatePhase1, hfail,
        markErrored, mapGet_mapSet_self]
  · intro hfail
    have hdb := updateOp_none db id updates f fate hfail
    refine ⟨?_, ?_, ?_⟩
    · simp [optimisticUpdate, optimisticUpdatePhase1, hfail, hdb]
    · simp [optimisticUpdate, optimisticUpdatePhase1, hfail]
    · simp only [optimisticUpdate, optimisticUpdatePhase1, hfail,
        markErrored, mapGet_mapSet_self]
  · intro hfail
    have hdb := removeOp_false db id fate hfail
    refine ⟨?_, ?_, ?_⟩
    · simp [optimisticDelete, hfail, hdb]
    · simp [optimisticDelete, hfail]
    · simp only [optimisticDelete, hfail, Bool.false_eq_true, if_false,
        markErrored, mapGet_mapSet_self]

/-- Record and store of the C9 witness scenario. -/
def c9Rec : Record := [("userId", Value.num 1), ("name", Value.str "Al")]

/-- Store of the C9 witness scenario. -/
def c9Store : Store := ⟨"userId", none, [c9Rec], 2⟩

/-- C9 witness: a request-level failure on a concrete delete leaves the
single-record store untouched and reports failure as data. -/
theorem optimistic_failure_preserves_store_witness :
    (optimisticDelete c9Store [] "op9" 1 c9Rec Fate.reqError).2.1 = c9Store
    ∧ (optimisticDelete c9Store [] "op9" 1 c9Rec Fate.reqError).1
        = ⟨false, none, some dbFailMsg, "op9"⟩
    ∧ (optimisticCreate c9Store "userId" [] "op9"
        [("name", Value.str "Z")] Fate.txError).2.1 = c9Store := by
  have h := optimistic_failure_preserves_store c9Store "userId" [] "op9"
    [("name", Value.str "Z")] 1 [] c9Rec (fun _ => []) Fate.reqError
  have h2 := optimistic_failure_preserves_store c9Store "userId" [] "op9"
    [("name", Value.str "Z")] 1 [] c9Rec (fun _ => []) Fate.txError
  exact ⟨(h.2.2 (by decide)).1, (h.2.2 (by decide)).2.1,
    (h2.1 (by decide)).1⟩

end IDBDemo
